import Mathlib

/-!
Shallow embedding of the Hypo "Hypothetical Machine" (machine.go) in Lean 4.

Memory is modelled as a total function from addresses to integers; every
memory access performed by the Go code is guarded by an `inBounds` check, so
the total-function model coincides with the Go array on all reachable
accesses.  Go's truncating integer division and remainder (`/` and `%` on
`int`) are modelled by `Int.tdiv` and `Int.tmod`.  The two injected input/output hooks
are modelled by passing the value the read hook would return as an argument to
`step` and by recording, in the step result, how many times the read hook was
invoked and which values were handed to the write hook.
-/

/-- The Hypo machine has 50 memory addresses (Go constant memSize). -/
def memSize : Int := 50

/-- Embedding of Go inBounds: validates whether an address is valid. -/
def inBounds (addr : Int) : Bool := addr ≥ 0 && addr < memSize

/-- Embedding of Go boundsCap: integer bounds capping to [-99999, 99999]. -/
def boundsCap (i : Int) : Int :=
  if i > 99999 then 99999
  else if i < -99999 then -99999
  else i

/-- Embedding of the Go CPUState enumeration. -/
inductive CPUState where
  | CPUok
  | CPUbadinst
  | CPUbadaddr
  | CPUdivzero
  | CPUhalt
deriving DecidableEq, Repr

open CPUState

/-- Embedding of the Go Instruction struct: an op mnemonic and a target address. -/
structure Instruction where
  op : String
  addr : Int
deriving DecidableEq, Repr

/-- The op codes with textual equivalents (the Go map `ops`, 17 entries). -/
def opsTable : List (Int × String) :=
  [(0, "HLT"), (1, "JEQ"), (2, "JGT"), (3, "JLT"), (5, "JMP"), (6, "JLE"),
   (7, "JNE"), (10, "LAC"), (11, "PAC"), (12, "LMQ"), (13, "PMQ"),
   (20, "ADD"), (21, "SUB"), (22, "MUL"), (23, "DIV"), (30, "GET"),
   (31, "PUT")]

/-- Lookup in the opcode table (Go `ops[op]` with its ok flag as Option). -/
def ops (k : Int) : Option String := opsTable.lookup k

/-- Embedding of the Go Machine struct: memory, program counter, accumulator,
multiplier-quotient and CPU state.  The input/output hook fields are externalised into
the `step` function; the trace flag only drives an observation side channel
and has no effect on machine state, so it is omitted. -/
structure Machine where
  mem : Int → Int
  pc : Int
  ac : Int
  mq : Int
  state : CPUState

/-- Embedding of Go NewMachine: zero memory and registers, CPUok state. -/
def NewMachine : Machine :=
  { mem := fun _ => 0, pc := 0, ac := 0, mq := 0, state := CPUok }

/-- Point update of a memory function (Go `h.mem[a] = v`). -/
def writeMem (mem : Int → Int) (a v : Int) : Int → Int :=
  fun x => if x = a then v else mem x

/-- Embedding of Go getInstruction: decode the word stored at addr. -/
def getInstruction (h : Machine) (addr : Int) : Instruction × CPUState :=
  if !(inBounds addr) then (⟨"UNK", 0⟩, CPUbadinst)
  else
    let d := h.mem addr
    let op := Int.tdiv d 1000
    let a := Int.tmod d 1000
    match ops op with
    | none => (⟨"UNK", a⟩, CPUbadinst)
    | some o => if !(inBounds a) then (⟨o, a⟩, CPUbadaddr) else (⟨o, a⟩, CPUok)

/-- The observable result of one Step: the new machine, the number of times
the injected read hook was invoked, and the values passed to the write hook. -/
structure StepResult where
  m : Machine
  reads : Nat
  out : List Int

/-- The dispatch switch of Go Step, applied to the machine g whose PC has
already been advanced past the instruction i being executed. -/
def execOp (g : Machine) (i : Instruction) (inp : Int) : StepResult :=
  if i.op = "HLT" then ⟨{g with state := CPUhalt}, 0, []⟩
  else if i.op = "JEQ" then ⟨if g.ac = 0 then {g with pc := i.addr} else g, 0, []⟩
    else if i.op = "JGT" then ⟨if g.ac > 0 then {g with pc := i.addr} else g, 0, []⟩
    else if i.op = "JLT" then ⟨if g.ac < 0 then {g with pc := i.addr} else g, 0, []⟩
    else if i.op = "JMP" then ⟨{g with pc := i.addr}, 0, []⟩
    else if i.op = "JLE" then ⟨if g.ac ≤ 0 then {g with pc := i.addr} else g, 0, []⟩
    else if i.op = "JNE" then ⟨if g.ac ≠ 0 then {g with pc := i.addr} else g, 0, []⟩
    else if i.op = "LAC" then ⟨{g with ac := g.mem i.addr}, 0, []⟩
    else if i.op = "PAC" then ⟨{g with mem := writeMem g.mem i.addr g.ac}, 0, []⟩
    else if i.op = "LMQ" then ⟨{g with mq := g.mem i.addr}, 0, []⟩
    else if i.op = "PMQ" then ⟨{g with mem := writeMem g.mem i.addr g.mq}, 0, []⟩
    else if i.op = "ADD" then ⟨{g with ac := boundsCap (g.ac + g.mem i.addr)}, 0, []⟩
    else if i.op = "SUB" then ⟨{g with ac := boundsCap (g.ac - g.mem i.addr)}, 0, []⟩
    else if i.op = "MUL" then ⟨{g with mq := boundsCap (g.mq * g.mem i.addr)}, 0, []⟩
    else if i.op = "DIV" then
      if g.mem i.addr = 0 then ⟨{g with state := CPUdivzero}, 0, []⟩
      else ⟨{g with ac := Int.tmod g.mq (g.mem i.addr),
                    mq := Int.tdiv g.mq (g.mem i.addr)}, 0, []⟩
    else if i.op = "GET" then ⟨{g with mem := writeMem g.mem i.addr (boundsCap inp)}, 1, []⟩
    else if i.op = "PUT" then ⟨g, 0, [g.mem i.addr]⟩
    else ⟨{g with state := CPUbadinst}, 0, []⟩

/-- Embedding of Go Step.  `inp` is the value the injected read hook returns
if it is consulted (Go `h.input()`): decode at PC, record a failed verdict,
otherwise advance PC and dispatch on the op tag. -/
def step (h : Machine) (inp : Int) : StepResult :=
  let i := (getInstruction h h.pc).1
  let cs := (getInstruction h h.pc).2
  if cs ≠ CPUok then ⟨{h with state := cs}, 0, []⟩
  else execOp {h with pc := h.pc + 1} i inp

/-- Embedding of Go ResetCPU: zero the registers and restore CPUok. -/
def ResetCPU (h : Machine) : Machine :=
  {h with ac := 0, mq := 0, pc := 0, state := CPUok}

/-- The typed loader errors of machine.go (loadErrBadFile and friends). -/
inductive LoadErr where
  | badFile
  | badLine
  | badAddr
  | badValue
deriving DecidableEq, Repr

open LoadErr

/-- Character class of the RE2 escape d: the decimal digits. -/
def isDigitCh (c : Char) : Bool := '0' ≤ c && c ≤ '9'

/-- Character class of the RE2 escape s: tab, newline, form feed, carriage
return and space. -/
def isSpaceCh (c : Char) : Bool :=
  c = '\t' || c = '\n' || c = '\x0c' || c = '\r' || c = ' '

/-- Submatch extraction for the anchored Go regexp used by LoadProgram on one
line, with capture groups for the address token and the value token.  The
pattern is: start, group of one or more digits, a colon, optional whitespace,
group of zero or more minus signs followed by one or more digits, then either
end of line or a whitespace character followed by arbitrary comment text.
Because the regexp is anchored at both ends and each repetition is bounded by
a character that cannot extend it, the backtracking search is equivalent to
this deterministic maximal-munch scan. -/
def matchLine (cs : List Char) : Option (List Char × List Char) :=
  let d1 := cs.takeWhile isDigitCh
  let r1 := cs.dropWhile isDigitCh
  if d1.isEmpty then none
  else
    match r1 with
    | ':' :: r2 =>
      let r3 := r2.dropWhile isSpaceCh
      let ms := r3.takeWhile (fun c => c = '-')
      let r4 := r3.dropWhile (fun c => c = '-')
      let d2 := r4.takeWhile isDigitCh
      let r5 := r4.dropWhile isDigitCh
      if d2.isEmpty then none
      else
        match r5 with
        | [] => some (d1, ms ++ d2)
        | c :: _ => if isSpaceCh c then some (d1, ms ++ d2) else none
    | _ => none

/-- Decimal value of a nonempty all-digit token, none otherwise. -/
def digitsVal (cs : List Char) : Option Nat :=
  if cs.isEmpty || !(cs.all isDigitCh) then none
  else some (cs.foldl (fun n c => n * 10 + (c.toNat - Char.toNat '0')) 0)

/-- Embedding of Go strconv.Atoi on a 64-bit platform: an optional single
sign followed by one or more digits, rejected when the value does not fit in
a signed 64-bit integer. -/
def atoi (cs : List Char) : Option Int :=
  match cs with
  | '-' :: rest =>
    (digitsVal rest).bind (fun n => if n ≤ 2 ^ 63 then some (-(n : Int)) else none)
  | '+' :: rest =>
    (digitsVal rest).bind (fun n => if n < 2 ^ 63 then some ((n : Int)) else none)
  | _ =>
    (digitsVal cs).bind (fun n => if n < 2 ^ 63 then some ((n : Int)) else none)

/-- One iteration of the LoadProgram scan loop on a single line: regexp match
(bad-line on mismatch), address parse and range check (bad-addr), value parse
(bad-value); on success the address and the raw parsed value. -/
def parseLine (line : String) : Except LoadErr (Int × Int) :=
  match matchLine line.data with
  | none => Except.error badLine
  | some (aTok, vTok) =>
    match atoi aTok with
    | none => Except.error badAddr
    | some a =>
      if a < 0 || a ≥ memSize then Except.error badAddr
      else
        match atoi vTok with
        | none => Except.error badValue
        | some v => Except.ok (a, v)

/-- The LoadProgram scan loop: apply lines in order to the memory, stopping
at the first failing line; returns the memory as written so far together with
the error, if any. -/
def loadLines (mem : Int → Int) : List String → (Int → Int) × Option LoadErr
  | [] => (mem, none)
  | l :: ls =>
    match parseLine l with
    | Except.error e => (mem, some e)
    | Except.ok (a, v) => loadLines (writeMem mem a (boundsCap v)) ls

/-- Embedding of Go LoadProgram.  The reader is modelled as the list of lines
the scanner yields, plus a flag telling whether the scan ends in a read error
(the bad-file case); the state is forced to CPUhalt and the memory zeroed
before parsing, and the state is set to CPUok only when every line loads and
no read error occurred. -/
def LoadProgram (h : Machine) (lines : List String) (readErr : Bool) :
    Option LoadErr × Machine :=
  let h0 : Machine := {h with state := CPUhalt, mem := fun _ => 0}
  match loadLines h0.mem lines with
  | (mem1, some e) => (some e, {h0 with mem := mem1})
  | (mem1, none) =>
    if readErr then (some badFile, {h0 with mem := mem1})
    else (none, {h0 with mem := mem1, state := CPUok})

/-- The externally triggerable mutations of a Machine: one Step (with the
value the read hook would supply), one LoadProgram call, or a CPU reset. -/
inductive MOp where
  | mstep (inp : Int)
  | mload (lines : List String) (readErr : Bool)
  | mreset

/-- Run a sequence of machine operations from a starting machine. -/
def runOps (h : Machine) : List MOp → Machine
  | [] => h
  | MOp.mstep inp :: rest => runOps (step h inp).m rest
  | MOp.mload lines re :: rest => runOps (LoadProgram h lines re).2 rest
  | MOp.mreset :: rest => runOps (ResetCPU h) rest

/-- Iterated Step with a list of read-hook values. -/
def steps (h : Machine) : List Int → Machine
  | [] => h
  | i :: is => steps (step h i).m is

/-- The effect of one loader line on a memory image: store the clamped value
at the parsed address, or leave the memory unchanged on a parse failure. -/
def storeLine (mem : Int → Int) (l : String) : Int → Int :=
  match parseLine l with
  | Except.ok (a, v) => writeMem mem a (boundsCap v)
  | Except.error _ => mem

/-- The value-range invariant of the claims: every memory cell and both data
registers lie in [-99999, 99999]. -/
def MachineInv (m : Machine) : Prop :=
  (∀ a : Int, -99999 ≤ m.mem a ∧ m.mem a ≤ 99999) ∧
    (-99999 ≤ m.ac ∧ m.ac ≤ 99999) ∧ (-99999 ≤ m.mq ∧ m.mq ≤ 99999)

/-- A machine whose word at address 0 has opcode digits 32 and nonzero target
digits. -/
def mOp32 : Machine :=
  { mem := fun a => if a = 0 then 32005 else 0,
    pc := 0, ac := 0, mq := 0, state := CPUok }

/-- A machine whose word at address 0 has opcode digits 32 and zero target
digits. -/
def mOp32z : Machine :=
  { mem := fun a => if a = 0 then 32000 else 0,
    pc := 0, ac := 0, mq := 0, state := CPUok }

/-- A machine whose word at address 0 is PUT with out-of-range target 50. -/
def mPutBad : Machine :=
  { mem := fun a => if a = 0 then 31050 else 0,
    pc := 0, ac := 0, mq := 0, state := CPUok }

/-- A machine whose word at address 0 is PUT with in-range target 49. -/
def mPutOk : Machine :=
  { mem := fun a => if a = 0 then 31049 else 0,
    pc := 0, ac := 0, mq := 0, state := CPUok }

/-- A machine about to divide by zero: DIV 001 at address 0, memory cell 1
zero, with nonzero register values to observe. -/
def mDivZero : Machine :=
  { mem := fun a => if a = 0 then 23001 else 0,
    pc := 0, ac := 7, mq := 12, state := CPUok }

/-- A machine about to execute DIV 001 with MQ = 12 and divisor 9. -/
def mDivPos : Machine :=
  { mem := fun a => if a = 0 then 23001 else if a = 1 then 9 else 0,
    pc := 0, ac := 0, mq := 12, state := CPUok }

/-- A machine about to execute DIV 001 with MQ = -12 and divisor 9. -/
def mDivNeg : Machine :=
  { mem := fun a => if a = 0 then 23001 else if a = 1 then 9 else 0,
    pc := 0, ac := 0, mq := -12, state := CPUok }

/-- A runnable machine whose word at address 0 is an unconditional jump, an
instruction that leaves the CPU state untouched. -/
def mJmp : Machine :=
  { mem := fun a => if a = 0 then 5000 else 0,
    pc := 0, ac := 0, mq := 0, state := CPUok }

/-- A halted machine whose PC nevertheless holds a valid LAC 001, with memory
cell 1 nonzero. -/
def mHaltLac : Machine :=
  { mem := fun a => if a = 0 then 10001 else if a = 1 then 5 else 0,
    pc := 0, ac := 0, mq := 0, state := CPUhalt }

/-- A halted machine whose word at PC has the unassigned opcode 32. -/
def mHaltBad : Machine :=
  { mem := fun a => if a = 0 then 32000 else 0,
    pc := 0, ac := 0, mq := 0, state := CPUhalt }

/-! Helper lemmas shared by several claims. -/

/-- boundsCap always lands in the machine's legal value range. -/
theorem boundsCap_le (i : Int) : -99999 ≤ boundsCap i ∧ boundsCap i ≤ 99999 := by
  unfold boundsCap
  split_ifs <;> omega

/-- The truncating remainder of a nonpositive dividend is nonpositive. -/
theorem tmod_nonpos (a b : Int) (ha : a ≤ 0) : Int.tmod a b ≤ 0 := by
  cases a with
  | ofNat m =>
    have hm : m = 0 := by
      have h0 : (0 : Int) ≤ Int.ofNat m := Int.ofNat_nonneg m
      have h1 : Int.ofNat m = 0 := le_antisymm ha h0
      simpa using h1
    subst hm
    cases b with
    | ofNat n =>
      show Int.ofNat (0 % n) ≤ 0
      simp [Nat.zero_mod]
    | negSucc n =>
      show Int.ofNat (0 % (n + 1)) ≤ 0
      simp [Nat.zero_mod]
  | negSucc m =>
    cases b with
    | ofNat n =>
      show -Int.ofNat (Nat.succ m % n) ≤ 0
      exact neg_nonpos.mpr (Int.ofNat_nonneg _)
    | negSucc n =>
      show -Int.ofNat (Nat.succ m % Nat.succ n) ≤ 0
      exact neg_nonpos.mpr (Int.ofNat_nonneg _)

/-- The absolute value of the truncating remainder is the Nat remainder of
the absolute values. -/
theorem natAbs_tmod (a b : Int) : (Int.tmod a b).natAbs = a.natAbs % b.natAbs := by
  cases a with
  | ofNat m => cases b <;> rfl
  | negSucc m =>
    cases b with
    | ofNat n =>
      show (-Int.ofNat (Nat.succ m % n)).natAbs = (m + 1) % n
      rw [Int.natAbs_neg]
      rfl
    | negSucc n =>
      show (-Int.ofNat (Nat.succ m % Nat.succ n)).natAbs = (m + 1) % (n + 1)
      rw [Int.natAbs_neg]
      rfl

/-- When the decoder rejects the word at PC, step only records the verdict. -/
theorem step_frame (h : Machine) (inp : Int)
    (hcs : (getInstruction h h.pc).2 ≠ CPUok) :
    step h inp = ⟨{h with state := (getInstruction h h.pc).2}, 0, []⟩ := by
  simp [step, hcs]

/-- When the decoder accepts the word at PC, step advances PC and dispatches. -/
theorem step_ok (h : Machine) (inp : Int) (i : Instruction)
    (hgi : getInstruction h h.pc = (i, CPUok)) :
    step h inp = execOp {h with pc := h.pc + 1} i inp := by
  simp [step, hgi]

/-- The HLT arm of the dispatch switch. -/
theorem execOp_eq_hlt (g : Machine) (i : Instruction) (inp : Int)
    (hop : i.op = ("HLT")) :
    execOp g i inp = ⟨{g with state := CPUhalt}, 0, []⟩ := by
  simp [execOp, hop]

/-- The JEQ arm of the dispatch switch. -/
theorem execOp_eq_jeq (g : Machine) (i : Instruction) (inp : Int)
    (hop : i.op = ("JEQ")) :
    execOp g i inp = ⟨if g.ac = 0 then {g with pc := i.addr} else g, 0, []⟩ := by
  simp [execOp, hop]

/-- The JGT arm of the dispatch switch. -/
theorem execOp_eq_jgt (g : Machine) (i : Instruction) (inp : Int)
    (hop : i.op = ("JGT")) :
    execOp g i inp = ⟨if g.ac > 0 then {g with pc := i.addr} else g, 0, []⟩ := by
  simp [execOp, hop]

/-- The JLT arm of the dispatch switch. -/
theorem execOp_eq_jlt (g : Machine) (i : Instruction) (inp : Int)
    (hop : i.op = ("JLT")) :
    execOp g i inp = ⟨if g.ac < 0 then {g with pc := i.addr} else g, 0, []⟩ := by
  simp [execOp, hop]

/-- The JMP arm of the dispatch switch. -/
theorem execOp_eq_jmp (g : Machine) (i : Instruction) (inp : Int)
    (hop : i.op = ("JMP")) :
    execOp g i inp = ⟨{g with pc := i.addr}, 0, []⟩ := by
  simp [execOp, hop]

/-- The JLE arm of the dispatch switch. -/
theorem execOp_eq_jle (g : Machine) (i : Instruction) (inp : Int)
    (hop : i.op = ("JLE")) :
    execOp g i inp = ⟨if g.ac ≤ 0 then {g with pc := i.addr} else g, 0, []⟩ := by
  simp [execOp, hop]

/-- The JNE arm of the dispatch switch. -/
theorem execOp_eq_jne (g : Machine) (i : Instruction) (inp : Int)
    (hop : i.op = ("JNE")) :
    execOp g i inp = ⟨if g.ac ≠ 0 then {g with pc := i.addr} else g, 0, []⟩ := by
  simp [execOp, hop]

/-- The LAC arm of the dispatch switch. -/
theorem execOp_eq_lac (g : Machine) (i : Instruction) (inp : Int)
    (hop : i.op = ("LAC")) :
    execOp g i inp = ⟨{g with ac := g.mem i.addr}, 0, []⟩ := by
  simp [execOp, hop]

/-- The PAC arm of the dispatch switch. -/
theorem execOp_eq_pac (g : Machine) (i : Instruction) (inp : Int)
    (hop : i.op = ("PAC")) :
    execOp g i inp = ⟨{g with mem := writeMem g.mem i.addr g.ac}, 0, []⟩ := by
  simp [execOp, hop]

/-- The LMQ arm of the dispatch switch. -/
theorem execOp_eq_lmq (g : Machine) (i : Instruction) (inp : Int)
    (hop : i.op = ("LMQ")) :
    execOp g i inp = ⟨{g with mq := g.mem i.addr}, 0, []⟩ := by
  simp [execOp, hop]

/-- The PMQ arm of the dispatch switch. -/
theorem execOp_eq_pmq (g : Machine) (i : Instruction) (inp : Int)
    (hop : i.op = ("PMQ")) :
    execOp g i inp = ⟨{g with mem := writeMem g.mem i.addr g.mq}, 0, []⟩ := by
  simp [execOp, hop]

/-- The ADD arm of the dispatch switch. -/
theorem execOp_eq_add (g : Machine) (i : Instruction) (inp : Int)
    (hop : i.op = ("ADD")) :
    execOp g i inp = ⟨{g with ac := boundsCap (g.ac + g.mem i.addr)}, 0, []⟩ := by
  simp [execOp, hop]

/-- The SUB arm of the dispatch switch. -/
theorem execOp_eq_sub (g : Machine) (i : Instruction) (inp : Int)
    (hop : i.op = ("SUB")) :
    execOp g i inp = ⟨{g with ac := boundsCap (g.ac - g.mem i.addr)}, 0, []⟩ := by
  simp [execOp, hop]

/-- The MUL arm of the dispatch switch. -/
theorem execOp_eq_mul (g : Machine) (i : Instruction) (inp : Int)
    (hop : i.op = ("MUL")) :
    execOp g i inp = ⟨{g with mq := boundsCap (g.mq * g.mem i.addr)}, 0, []⟩ := by
  simp [execOp, hop]

/-- The DIV arm of the dispatch switch (zero divisor). -/
theorem execOp_eq_div0 (g : Machine) (i : Instruction) (inp : Int)
    (hop : i.op = ("DIV")) (hz : g.mem i.addr = 0) :
    execOp g i inp = ⟨{g with state := CPUdivzero}, 0, []⟩ := by
  simp [execOp, hop, hz]

/-- The DIV arm of the dispatch switch (nonzero divisor). -/
theorem execOp_eq_div (g : Machine) (i : Instruction) (inp : Int)
    (hop : i.op = ("DIV")) (hz : g.mem i.addr ≠ 0) :
    execOp g i inp = ⟨{g with ac := Int.tmod g.mq (g.mem i.addr), mq := Int.tdiv g.mq (g.mem i.addr)}, 0, []⟩ := by
  simp [execOp, hop, hz]

/-- The GET arm of the dispatch switch. -/
theorem execOp_eq_get (g : Machine) (i : Instruction) (inp : Int)
    (hop : i.op = ("GET")) :
    execOp g i inp = ⟨{g with mem := writeMem g.mem i.addr (boundsCap inp)}, 1, []⟩ := by
  simp [execOp, hop]

/-- The PUT arm of the dispatch switch. -/
theorem execOp_eq_put (g : Machine) (i : Instruction) (inp : Int)
    (hop : i.op = ("PUT")) :
    execOp g i inp = ⟨g, 0, [g.mem i.addr]⟩ := by
  simp [execOp, hop]

/-- The default arm of the dispatch switch: an op tag outside the table. -/
theorem execOp_eq_unk (g : Machine) (i : Instruction) (inp : Int)
    (hop1 : i.op ≠ ("HLT"))
    (hop2 : i.op ≠ ("JEQ"))
    (hop3 : i.op ≠ ("JGT"))
    (hop4 : i.op ≠ ("JLT"))
    (hop5 : i.op ≠ ("JMP"))
    (hop6 : i.op ≠ ("JLE"))
    (hop7 : i.op ≠ ("JNE"))
    (hop8 : i.op ≠ ("LAC"))
    (hop9 : i.op ≠ ("PAC"))
    (hop10 : i.op ≠ ("LMQ"))
    (hop11 : i.op ≠ ("PMQ"))
    (hop12 : i.op ≠ ("ADD"))
    (hop13 : i.op ≠ ("SUB"))
    (hop14 : i.op ≠ ("MUL"))
    (hop15 : i.op ≠ ("DIV"))
    (hop16 : i.op ≠ ("GET"))
    (hop17 : i.op ≠ ("PUT")) :
    execOp g i inp = ⟨{g with state := CPUbadinst}, 0, []⟩ := by
  simp [execOp, hop1, hop2, hop3, hop4, hop5, hop6, hop7, hop8, hop9, hop10, hop11, hop12, hop13, hop14, hop15, hop16, hop17]

/-- The dispatch switch either leaves the state field untouched or sets it to
a value other than CPUok. -/
theorem execOp_state_cases (g : Machine) (i : Instruction) (inp : Int) :
    (execOp g i inp).m.state = g.state ∨ (execOp g i inp).m.state ≠ CPUok := by
  by_cases h1 : i.op = ("HLT")
  · rw [execOp_eq_hlt g i inp h1]
    right
    simp
  by_cases h2 : i.op = ("JEQ")
  · rw [execOp_eq_jeq g i inp h2]
    left
    simp [apply_ite Machine.state]
  by_cases h3 : i.op = ("JGT")
  · rw [execOp_eq_jgt g i inp h3]
    left
    simp [apply_ite Machine.state]
  by_cases h4 : i.op = ("JLT")
  · rw [execOp_eq_jlt g i inp h4]
    left
    simp [apply_ite Machine.state]
  by_cases h5 : i.op = ("JMP")
  · rw [execOp_eq_jmp g i inp h5]
    left
    rfl
  by_cases h6 : i.op = ("JLE")
  · rw [execOp_eq_jle g i inp h6]
    left
    simp [apply_ite Machine.state]
  by_cases h7 : i.op = ("JNE")
  · rw [execOp_eq_jne g i inp h7]
    left
    simp [apply_ite Machine.state]
  by_cases h8 : i.op = ("LAC")
  · rw [execOp_eq_lac g i inp h8]
    left
    rfl
  by_cases h9 : i.op = ("PAC")
  · rw [execOp_eq_pac g i inp h9]
    left
    rfl
  by_cases h10 : i.op = ("LMQ")
  · rw [execOp_eq_lmq g i inp h10]
    left
    rfl
  by_cases h11 : i.op = ("PMQ")
  · rw [execOp_eq_pmq g i inp h11]
    left
    rfl
  by_cases h12 : i.op = ("ADD")
  · rw [execOp_eq_add g i inp h12]
    left
    rfl
  by_cases h13 : i.op = ("SUB")
  · rw [execOp_eq_sub g i inp h13]
    left
    rfl
  by_cases h14 : i.op = ("MUL")
  · rw [execOp_eq_mul g i inp h14]
    left
    rfl
  by_cases h15 : i.op = ("DIV")
  · by_cases hz : g.mem i.addr = 0
    · rw [execOp_eq_div0 g i inp h15 hz]
      right
      simp
    · rw [execOp_eq_div g i inp h15 hz]
      left
      rfl
  by_cases h16 : i.op = ("GET")
  · rw [execOp_eq_get g i inp h16]
    left
    rfl
  by_cases h17 : i.op = ("PUT")
  · rw [execOp_eq_put g i inp h17]
    left
    rfl
  rw [execOp_eq_unk g i inp h1 h2 h3 h4 h5 h6 h7 h8 h9 h10 h11 h12 h13 h14 h15 h16 h17]
  right
  simp

/-! C1: the decoder characterization. -/

/-- C1: for every machine and every fetch address, getInstruction returns the
unknown instruction (op UNK, addr 0) with CPUbadinst when the address is out
of [0, 50); returns (UNK, word tmod 1000) with CPUbadinst when the address is
in range but the opcode (word tdiv 1000) is not in the 17-entry table; returns
(op, target) with CPUbadaddr when the opcode is known but the target is out of
[0, 50); and returns (op, target) with CPUok otherwise.  getInstruction is a
pure function of the machine, so it mutates nothing. -/
theorem getInstruction_spec (h : Machine) (addr : Int) :
    opsTable.length = 17 ∧
    (inBounds addr = false → getInstruction h addr = (⟨"UNK", 0⟩, CPUbadinst)) ∧
    (inBounds addr = true → ops (Int.tdiv (h.mem addr) 1000) = none →
      getInstruction h addr = (⟨"UNK", Int.tmod (h.mem addr) 1000⟩, CPUbadinst)) ∧
    (∀ o : String, inBounds addr = true →
      ops (Int.tdiv (h.mem addr) 1000) = some o →
      inBounds (Int.tmod (h.mem addr) 1000) = false →
      getInstruction h addr = (⟨o, Int.tmod (h.mem addr) 1000⟩, CPUbadaddr)) ∧
    (∀ o : String, inBounds addr = true →
      ops (Int.tdiv (h.mem addr) 1000) = some o →
      inBounds (Int.tmod (h.mem addr) 1000) = true →
      getInstruction h addr = (⟨o, Int.tmod (h.mem addr) 1000⟩, CPUok)) := by
  refine ⟨by decide, ?_, ?_, ?_, ?_⟩
  · intro hb
    simp [getInstruction, hb]
  · intro hb hops
    simp [getInstruction, hb, hops]
  · intro o hb hops hta
    simp [getInstruction, hb, hops, hta]
  · intro o hb hops hta
    simp [getInstruction, hb, hops, hta]

/-- Witness for C1: the decoder spec applied at a negative address, at the
addresses equal to and beyond the memory size, at an unknown opcode, at a
known opcode with out-of-range target, and at a fully valid instruction. -/
theorem getInstruction_spec_witness :
    getInstruction NewMachine (-1) = (⟨"UNK", 0⟩, CPUbadinst) ∧
    getInstruction NewMachine 50 = (⟨"UNK", 0⟩, CPUbadinst) ∧
    getInstruction NewMachine 51 = (⟨"UNK", 0⟩, CPUbadinst) ∧
    getInstruction mOp32 0 = (⟨"UNK", 5⟩, CPUbadinst) ∧
    getInstruction mPutBad 0 = (⟨"PUT", 50⟩, CPUbadaddr) ∧
    getInstruction mPutOk 0 = (⟨"PUT", 49⟩, CPUok) := by
  refine ⟨?_, ?_, ?_, ?_, ?_, ?_⟩
  · exact (getInstruction_spec NewMachine (-1)).2.1 (by decide)
  · exact (getInstruction_spec NewMachine 50).2.1 (by decide)
  · exact (getInstruction_spec NewMachine 51).2.1 (by decide)
  · exact (getInstruction_spec mOp32 0).2.2.1 (by decide) (by decide)
  · exact (getInstruction_spec mPutBad 0).2.2.2.1 ("PUT") (by decide) (by decide) (by decide)
  · exact (getInstruction_spec mPutOk 0).2.2.2.2 ("PUT") (by decide) (by decide) (by decide)

/-! C7: decoding a word with opcode digits 32. -/

/-- C7 counterexample: the word 32005 has opcode digits 32 and decodes to
(UNK, 5), not to (UNK, 0): the embedded target digits are reported. -/
theorem getInstruction_op32_cex :
    Int.tdiv (mOp32.mem 0) 1000 = 32 ∧
    getInstruction mOp32 0 = (⟨"UNK", 5⟩, CPUbadinst) ∧
    getInstruction mOp32 0 ≠ (⟨"UNK", 0⟩, CPUbadinst) := by
  refine ⟨by decide, by decide, by decide⟩

/-- C7 amended: for every memory word whose opcode digits equal 32, decoding
returns (UNK, word tmod 1000) with state CPUbadinst; the op tag and the state
are independent of the embedded target digits, but the reported address field
is the decoded target, which is 0 only when the target digits are 0. -/
theorem getInstruction_op32 (h : Machine) (addr : Int)
    (hb : inBounds addr = true)
    (hop : Int.tdiv (h.mem addr) 1000 = 32) :
    getInstruction h addr = (⟨"UNK", Int.tmod (h.mem addr) 1000⟩, CPUbadinst) := by
  have hops : ops (Int.tdiv (h.mem addr) 1000) = none := by
    rw [hop]
    decide
  simp [getInstruction, hb, hops]

/-- Witness for C7: the amended decode rule applied to the words 32000 and
32005 stored at address 0. -/
theorem getInstruction_op32_witness :
    getInstruction mOp32z 0 = (⟨"UNK", 0⟩, CPUbadinst) ∧
    getInstruction mOp32 0 = (⟨"UNK", Int.tmod (mOp32.mem 0) 1000⟩, CPUbadinst) := by
  constructor
  · exact getInstruction_op32 mOp32z 0 (by decide) (by decide)
  · exact getInstruction_op32 mOp32 0 (by decide) (by decide)

/-- Case split on the state assigned by step: either the state field is left
untouched or it is set to a value other than CPUok. -/
theorem step_state_cases (h : Machine) (inp : Int) :
    (step h inp).m.state = h.state ∨ (step h inp).m.state ≠ CPUok := by
  by_cases hcs : (getInstruction h h.pc).2 = CPUok
  · rcases hgi : getInstruction h h.pc with ⟨i, cs⟩
    rw [hgi] at hcs
    have hcs' : cs = CPUok := hcs
    subst hcs'
    rw [step_ok h inp i hgi]
    exact execOp_state_cases {h with pc := h.pc + 1} i inp
  · right
    rw [step_frame h inp hcs]
    simpa using hcs

/-- From a non-runnable state, no sequence of step calls reaches CPUok. -/
theorem steps_stuck (inps : List Int) :
    ∀ h : Machine, h.state ≠ CPUok → (steps h inps).state ≠ CPUok := by
  induction inps with
  | nil => exact fun h hne => hne
  | cons i is ih =>
    intro h hne
    show (steps (step h i).m is).state ≠ CPUok
    apply ih
    rcases step_state_cases h i with he | hne2
    · rw [he]
      exact hne
    · exact hne2

/-! C2: divide by zero leaves AC and MQ untouched. -/

/-- C2: when the word at PC decodes to a valid DIV whose target cell holds 0,
step sets the CPU state to CPUdivzero and leaves AC, MQ and all of memory
exactly as they were. -/
theorem step_div_by_zero (h : Machine) (inp t : Int)
    (hdec : getInstruction h h.pc = (⟨"DIV", t⟩, CPUok))
    (hz : h.mem t = 0) :
    (step h inp).m.state = CPUdivzero ∧
    (step h inp).m.ac = h.ac ∧
    (step h inp).m.mq = h.mq ∧
    (step h inp).m.mem = h.mem := by
  rw [step_ok h inp (⟨("DIV"), t⟩ : Instruction) hdec]
  refine ⟨?_, ?_, ?_, ?_⟩ <;> simp [execOp, hz]

/-- Witness for C2: the divide-by-zero rule applied to a concrete machine
with AC = 7 and MQ = 12. -/
theorem step_div_by_zero_witness :
    (step mDivZero 0).m.state = CPUdivzero ∧
    (step mDivZero 0).m.ac = mDivZero.ac ∧
    (step mDivZero 0).m.mq = mDivZero.mq ∧
    (step mDivZero 0).m.mem = mDivZero.mem :=
  step_div_by_zero mDivZero 0 1 (by decide) (by decide)

/-! C5: a rejected decode only records the verdict. -/

/-- C5: when decoding the word at PC yields a verdict other than CPUok, step
stores that verdict in the CPU state and changes nothing else: PC, AC, MQ and
every memory cell are unchanged and neither input/output hook is invoked. -/
theorem step_decode_reject (h : Machine) (inp : Int)
    (hcs : (getInstruction h h.pc).2 ≠ CPUok) :
    (step h inp).m.state = (getInstruction h h.pc).2 ∧
    (step h inp).m.pc = h.pc ∧
    (step h inp).m.ac = h.ac ∧
    (step h inp).m.mq = h.mq ∧
    (step h inp).m.mem = h.mem ∧
    (step h inp).reads = 0 ∧
    (step h inp).out = [] := by
  rw [step_frame h inp hcs]
  simp

/-- Witness for C5: the rejected-decode rule applied to the machine holding
the invalid word 32005 at PC. -/
theorem step_decode_reject_witness :
    (step mOp32 0).m.state = (getInstruction mOp32 0).2 ∧
    (step mOp32 0).m.pc = mOp32.pc ∧
    (step mOp32 0).m.ac = mOp32.ac ∧
    (step mOp32 0).m.mq = mOp32.mq ∧
    (step mOp32 0).m.mem = mOp32.mem ∧
    (step mOp32 0).reads = 0 ∧
    (step mOp32 0).out = [] :=
  step_decode_reject mOp32 0 (by decide)

/-! C6: division semantics with a nonzero divisor. -/

/-- C6: when the word at PC decodes to a valid DIV whose target cell is
nonzero, step puts the truncating remainder of MQ by the divisor in AC and the
truncating quotient in MQ, and the sign of the remainder follows the
dividend. -/
theorem step_div_nonzero (h : Machine) (inp t : Int)
    (hdec : getInstruction h h.pc = (⟨"DIV", t⟩, CPUok))
    (hnz : h.mem t ≠ 0) :
    (step h inp).m.ac = Int.tmod h.mq (h.mem t) ∧
    (step h inp).m.mq = Int.tdiv h.mq (h.mem t) ∧
    (0 ≤ h.mq → 0 ≤ (step h inp).m.ac) ∧
    (h.mq ≤ 0 → (step h inp).m.ac ≤ 0) := by
  rw [step_ok h inp (⟨("DIV"), t⟩ : Instruction) hdec]
  have h1 : (execOp {h with pc := h.pc + 1} (⟨("DIV"), t⟩ : Instruction) inp).m.ac
      = Int.tmod h.mq (h.mem t) := by
    simp [execOp, hnz]
  have h2 : (execOp {h with pc := h.pc + 1} (⟨("DIV"), t⟩ : Instruction) inp).m.mq
      = Int.tdiv h.mq (h.mem t) := by
    simp [execOp, hnz]
  refine ⟨h1, h2, ?_, ?_⟩
  · intro hmq
    rw [h1]
    exact Int.tmod_nonneg (h.mem t) hmq
  · intro hmq
    rw [h1]
    exact tmod_nonpos h.mq (h.mem t) hmq

/-- Witness for C6: DIV with MQ = 12 and divisor 9 yields MQ = 1 and AC = 3,
and with MQ = -12 and divisor 9 yields MQ = -1 and AC = -3. -/
theorem step_div_nonzero_witness :
    (step mDivPos 0).m.mq = 1 ∧ (step mDivPos 0).m.ac = 3 ∧
    (step mDivNeg 0).m.mq = -1 ∧ (step mDivNeg 0).m.ac = -3 := by
  have hp := step_div_nonzero mDivPos 0 1 (by decide) (by decide)
  have hn := step_div_nonzero mDivNeg 0 1 (by decide) (by decide)
  refine ⟨?_, ?_, ?_, ?_⟩
  · rw [hp.2.1]
    decide
  · rw [hp.1]
    decide
  · rw [hn.2.1]
    decide
  · rw [hn.1]
    decide

/-! C9: stepping a non-runnable machine. -/

/-- C9 counterexample: step does not consult the CPU state, so stepping a
halted machine whose PC holds a valid LAC mutates the accumulator. -/
theorem step_halted_mutates_cex :
    mHaltLac.state = CPUhalt ∧ mHaltLac.ac = 0 ∧ (step mHaltLac 0).m.ac = 5 := by
  refine ⟨rfl, rfl, by decide⟩

/-- C9 amended: for a machine in a non-runnable state, step is harmless
exactly when the word at PC does not decode to a runnable instruction: then
AC, MQ and every memory cell are unchanged and only the CPU state field is
rewritten with the decode verdict.  When the word at PC decodes cleanly, step
executes it as if the machine were runnable. -/
theorem step_nonrunnable_decode_reject (h : Machine) (inp : Int)
    (hst : h.state ≠ CPUok)
    (hcs : (getInstruction h h.pc).2 ≠ CPUok) :
    (step h inp).m.state = (getInstruction h h.pc).2 ∧
    (step h inp).m.pc = h.pc ∧
    (step h inp).m.ac = h.ac ∧
    (step h inp).m.mq = h.mq ∧
    (step h inp).m.mem = h.mem ∧
    (step h inp).reads = 0 ∧
    (step h inp).out = [] := by
  rw [step_frame h inp hcs]
  simp

/-- Witness for C9: the amended rule applied to a halted machine whose word
at PC has the unassigned opcode 32. -/
theorem step_nonrunnable_decode_reject_witness :
    (step mHaltBad 0).m.state = (getInstruction mHaltBad 0).2 ∧
    (step mHaltBad 0).m.pc = mHaltBad.pc ∧
    (step mHaltBad 0).m.ac = mHaltBad.ac ∧
    (step mHaltBad 0).m.mq = mHaltBad.mq ∧
    (step mHaltBad 0).m.mem = mHaltBad.mem ∧
    (step mHaltBad 0).reads = 0 ∧
    (step mHaltBad 0).out = [] :=
  step_nonrunnable_decode_reject mHaltBad 0 (by decide) (by decide)

/-! C10: step never assigns the runnable state. -/

/-- C10: if the CPU state is CPUok after a step it was CPUok before; once the
machine leaves CPUok no sequence of step calls restores it; a CPU reset does
restore CPUok, as does a fully successful LoadProgram. -/
theorem step_no_revive (h : Machine) (inp : Int) :
    ((step h inp).m.state = CPUok → h.state = CPUok) ∧
    (∀ inps : List Int, h.state ≠ CPUok → (steps h inps).state ≠ CPUok) ∧
    (ResetCPU h).state = CPUok ∧
    (∀ (lines : List String) (re : Bool), (LoadProgram h lines re).1 = none →
      (LoadProgram h lines re).2.state = CPUok) := by
  refine ⟨?_, fun inps => steps_stuck inps h, rfl, ?_⟩
  · intro hok
    rcases step_state_cases h inp with he | hne
    · rw [← he]
      exact hok
    · exact absurd hok hne
  · intro lines re h1
    rcases hll : loadLines (fun _ => (0 : Int)) lines with ⟨mem1, oe⟩
    have hll' : loadLines (Machine.mem {h with state := CPUhalt, mem := fun _ => 0}) lines
        = (mem1, oe) := hll
    cases oe with
    | some e => simp [LoadProgram, hll'] at h1
    | none =>
      cases re with
      | true => simp [LoadProgram, hll'] at h1
      | false => simp [LoadProgram, hll']

/-- Witness for C10: a jump instruction keeps a runnable machine runnable, a
halted machine stays non-runnable over several steps, and reset and an empty
successful load both restore CPUok. -/
theorem step_no_revive_witness :
    mJmp.state = CPUok ∧
    (steps mHaltBad [0, 0, 0]).state ≠ CPUok ∧
    (ResetCPU mHaltBad).state = CPUok ∧
    (LoadProgram mHaltBad [] false).2.state = CPUok := by
  refine ⟨?_, ?_, ?_, ?_⟩
  · exact (step_no_revive mJmp 0).1 (by decide)
  · exact (step_no_revive mHaltBad 0).2.1 [0, 0, 0] (by decide)
  · exact (step_no_revive mHaltBad 0).2.2.1
  · exact (step_no_revive mHaltBad 0).2.2.2 [] false (by decide)

/-! C3: the value-range invariant. -/

/-- A point update preserves the memory range invariant when the stored value
is in range. -/
theorem memInv_write (mem : Int → Int)
    (hm : ∀ x : Int, -99999 ≤ mem x ∧ mem x ≤ 99999) (a v : Int)
    (hv : -99999 ≤ v ∧ v ≤ 99999) :
    ∀ x : Int, -99999 ≤ writeMem mem a v x ∧ writeMem mem a v x ≤ 99999 := by
  intro x
  unfold writeMem
  split
  · exact hv
  · exact hm x

/-- The loader scan loop preserves the memory range invariant. -/
theorem loadLines_inv (lines : List String) :
    ∀ mem : Int → Int, (∀ x : Int, -99999 ≤ mem x ∧ mem x ≤ 99999) →
      ∀ x : Int, -99999 ≤ (loadLines mem lines).1 x ∧ (loadLines mem lines).1 x ≤ 99999 := by
  induction lines with
  | nil => exact fun mem hm => hm
  | cons l ls ih =>
    intro mem hm
    cases hp : parseLine l with
    | error e =>
      simp only [loadLines, hp]
      exact hm
    | ok av =>
      rcases av with ⟨a, v⟩
      simp only [loadLines, hp]
      exact ih _ (memInv_write mem hm a _ (boundsCap_le v))

/-- LoadProgram preserves the machine invariant. -/
theorem machineInv_load (h : Machine) (lines : List String) (re : Bool)
    (hI : MachineInv h) : MachineInv (LoadProgram h lines re).2 := by
  obtain ⟨hmem, hac, hmq⟩ := hI
  have hz : ∀ x : Int, -99999 ≤ (fun _ : Int => (0 : Int)) x ∧ (fun _ : Int => (0 : Int)) x ≤ 99999 := by
    intro x
    constructor <;> norm_num
  have hm1 := loadLines_inv lines (fun _ => 0) hz
  rcases hll : loadLines (fun _ => (0 : Int)) lines with ⟨mem1, oe⟩
  have hll' : loadLines (Machine.mem {h with state := CPUhalt, mem := fun _ => 0}) lines
      = (mem1, oe) := hll
  rw [hll] at hm1
  cases oe with
  | some e =>
    simp only [LoadProgram, hll']
    exact ⟨hm1, hac, hmq⟩
  | none =>
    cases re with
    | true =>
      simp only [LoadProgram, hll']
      exact ⟨hm1, hac, hmq⟩
    | false =>
      simp only [LoadProgram, hll']
      exact ⟨hm1, hac, hmq⟩

/-- ResetCPU preserves the machine invariant. -/
theorem machineInv_reset (h : Machine) (hI : MachineInv h) :
    MachineInv (ResetCPU h) := by
  obtain ⟨hmem, _, _⟩ := hI
  refine ⟨hmem, ?_, ?_⟩ <;> constructor <;> norm_num [ResetCPU]

/-- Step preserves the machine invariant, for any value supplied by the read
hook. -/
theorem machineInv_step (h : Machine) (inp : Int) (hI : MachineInv h) :
    MachineInv (step h inp).m := by
  obtain ⟨hmem, hac, hmq⟩ := hI
  by_cases hcs : (getInstruction h h.pc).2 = CPUok
  case neg =>
    rw [step_frame h inp hcs]
    exact ⟨hmem, hac, hmq⟩
  case pos =>
    rcases hgi : getInstruction h h.pc with ⟨i, cs⟩
    rw [hgi] at hcs
    have hcs' : cs = CPUok := hcs
    subst hcs'
    rw [step_ok h inp i hgi]
    by_cases h1 : i.op = ("HLT")
    · rw [execOp_eq_hlt _ i inp h1]
      exact ⟨hmem, hac, hmq⟩
    by_cases h2 : i.op = ("JEQ")
    · rw [execOp_eq_jeq _ i inp h2]
      show MachineInv _
      split <;> exact ⟨hmem, hac, hmq⟩
    by_cases h3 : i.op = ("JGT")
    · rw [execOp_eq_jgt _ i inp h3]
      show MachineInv _
      split <;> exact ⟨hmem, hac, hmq⟩
    by_cases h4 : i.op = ("JLT")
    · rw [execOp_eq_jlt _ i inp h4]
      show MachineInv _
      split <;> exact ⟨hmem, hac, hmq⟩
    by_cases h5 : i.op = ("JMP")
    · rw [execOp_eq_jmp _ i inp h5]
      exact ⟨hmem, hac, hmq⟩
    by_cases h6 : i.op = ("JLE")
    · rw [execOp_eq_jle _ i inp h6]
      show MachineInv _
      split <;> exact ⟨hmem, hac, hmq⟩
    by_cases h7 : i.op = ("JNE")
    · rw [execOp_eq_jne _ i inp h7]
      show MachineInv _
      split <;> exact ⟨hmem, hac, hmq⟩
    by_cases h8 : i.op = ("LAC")
    · rw [execOp_eq_lac _ i inp h8]
      exact ⟨hmem, hmem i.addr, hmq⟩
    by_cases h9 : i.op = ("PAC")
    · rw [execOp_eq_pac _ i inp h9]
      exact ⟨memInv_write _ hmem _ _ hac, hac, hmq⟩
    by_cases h10 : i.op = ("LMQ")
    · rw [execOp_eq_lmq _ i inp h10]
      exact ⟨hmem, hac, hmem i.addr⟩
    by_cases h11 : i.op = ("PMQ")
    · rw [execOp_eq_pmq _ i inp h11]
      exact ⟨memInv_write _ hmem _ _ hmq, hac, hmq⟩
    by_cases h12 : i.op = ("ADD")
    · rw [execOp_eq_add _ i inp h12]
      exact ⟨hmem, boundsCap_le _, hmq⟩
    by_cases h13 : i.op = ("SUB")
    · rw [execOp_eq_sub _ i inp h13]
      exact ⟨hmem, boundsCap_le _, hmq⟩
    by_cases h14 : i.op = ("MUL")
    · rw [execOp_eq_mul _ i inp h14]
      exact ⟨hmem, hac, boundsCap_le _⟩
    by_cases h15 : i.op = ("DIV")
    · by_cases hz : h.mem i.addr = 0
      · rw [execOp_eq_div0 {h with pc := h.pc + 1} i inp h15 hz]
        exact ⟨hmem, hac, hmq⟩
      · rw [execOp_eq_div {h with pc := h.pc + 1} i inp h15 hz]
        refine ⟨hmem, ?_, ?_⟩
        · show -99999 ≤ Int.tmod h.mq (h.mem i.addr) ∧ Int.tmod h.mq (h.mem i.addr) ≤ 99999
          have ht := natAbs_tmod h.mq (h.mem i.addr)
          have hle : h.mq.natAbs % (h.mem i.addr).natAbs ≤ h.mq.natAbs := Nat.mod_le _ _
          omega
        · show -99999 ≤ Int.tdiv h.mq (h.mem i.addr) ∧ Int.tdiv h.mq (h.mem i.addr) ≤ 99999
          have ht : (h.mq.tdiv (h.mem i.addr)).natAbs
              = h.mq.natAbs / (h.mem i.addr).natAbs := Int.natAbs_tdiv h.mq (h.mem i.addr)
          have hle : h.mq.natAbs / (h.mem i.addr).natAbs ≤ h.mq.natAbs := Nat.div_le_self _ _
          omega
    by_cases h16 : i.op = ("GET")
    · rw [execOp_eq_get _ i inp h16]
      exact ⟨memInv_write _ hmem _ _ (boundsCap_le inp), hac, hmq⟩
    by_cases h17 : i.op = ("PUT")
    · rw [execOp_eq_put _ i inp h17]
      exact ⟨hmem, hac, hmq⟩
    rw [execOp_eq_unk _ i inp h1 h2 h3 h4 h5 h6 h7 h8 h9 h10 h11 h12 h13 h14 h15 h16 h17]
    exact ⟨hmem, hac, hmq⟩

/-- The machine invariant holds after any sequence of operations on any
machine that satisfies it. -/
theorem machineInv_runOps (l : List MOp) :
    ∀ m : Machine, MachineInv m → MachineInv (runOps m l) := by
  induction l with
  | nil => exact fun m hm => hm
  | cons op rest ih =>
    intro m hm
    cases op with
    | mstep inp => exact ih _ (machineInv_step m inp hm)
    | mload lines re => exact ih _ (machineInv_load m lines re hm)
    | mreset => exact ih _ (machineInv_reset m hm)

/-- C3: starting from a newly created machine, after any sequence of
LoadProgram, Step (with arbitrary read-hook values) and CPU-reset calls,
every memory cell and both the AC and MQ registers lie in [-99999, 99999];
register-memory copies therefore need no clamp. -/
theorem machine_values_bounded (mops : List MOp) (a : Int) :
    (-99999 ≤ (runOps NewMachine mops).mem a ∧ (runOps NewMachine mops).mem a ≤ 99999) ∧
    (-99999 ≤ (runOps NewMachine mops).ac ∧ (runOps NewMachine mops).ac ≤ 99999) ∧
    (-99999 ≤ (runOps NewMachine mops).mq ∧ (runOps NewMachine mops).mq ≤ 99999) := by
  have hbase : MachineInv NewMachine := by
    refine ⟨fun x => ?_, ?_, ?_⟩ <;> constructor <;> norm_num [NewMachine]
  obtain ⟨hmem, hac, hmq⟩ := machineInv_runOps mops NewMachine hbase
  exact ⟨hmem a, hac, hmq⟩

/-! C4: the loader contract. -/

/-- Characterization of the loader scan loop: the input splits into a prefix
of successfully parsed lines, folded into the memory in input order, and
either nothing remains (success) or the first remaining line is the failing
one and its error is returned. -/
theorem loadLines_spec (lines : List String) :
    ∀ mem : Int → Int,
    ∃ pre rest, lines = pre ++ rest ∧
      (∀ l ∈ pre, ∃ a v, parseLine l = Except.ok (a, v)) ∧
      (loadLines mem lines).1 = List.foldl storeLine mem pre ∧
      ((loadLines mem lines).2 = none ∧ rest = [] ∨
       ∃ e l2 rest2, (loadLines mem lines).2 = some e ∧ rest = l2 :: rest2 ∧
         parseLine l2 = Except.error e) := by
  induction lines with
  | nil =>
    intro mem
    exact ⟨[], [], rfl, by simp, rfl, Or.inl ⟨rfl, rfl⟩⟩
  | cons l ls ih =>
    intro mem
    cases hp : parseLine l with
    | error e =>
      refine ⟨[], l :: ls, rfl, by simp, ?_, Or.inr ⟨e, l, ls, ?_, rfl, hp⟩⟩
      · simp [loadLines, hp]
      · simp [loadLines, hp]
    | ok av =>
      rcases av with ⟨a, v⟩
      obtain ⟨pre, rest, heq, hok, hmem, hend⟩ := ih (writeMem mem a (boundsCap v))
      refine ⟨l :: pre, rest, by rw [List.cons_append, heq], ?_, ?_, ?_⟩
      · intro x hx
        rcases List.mem_cons.mp hx with hx | hx
        · subst hx
          exact ⟨a, v, hp⟩
        · exact hok x hx
      · have hst : storeLine mem l = writeMem mem a (boundsCap v) := by
          simp [storeLine, hp]
        simp only [loadLines, hp, List.foldl_cons, hst]
        exact hmem
      · simp only [loadLines, hp]
        exact hend

/-- C4: LoadProgram zeroes memory before parsing, applies lines strictly in
input order with values clamped to [-99999, 99999], stops at the first
failing line, returns a typed error with the state left CPUhalt and memory
holding exactly the assignments of the preceding lines, and sets the state
to CPUok exactly when every line loads and the scan ends cleanly.  The
registers are untouched by loading. -/
theorem LoadProgram_spec (h : Machine) (lines : List String) (re : Bool) :
    ∃ pre rest, lines = pre ++ rest ∧
      (∀ l ∈ pre, ∃ a v, parseLine l = Except.ok (a, v)) ∧
      (LoadProgram h lines re).2.mem = List.foldl storeLine (fun _ => 0) pre ∧
      (LoadProgram h lines re).2.pc = h.pc ∧
      (LoadProgram h lines re).2.ac = h.ac ∧
      (LoadProgram h lines re).2.mq = h.mq ∧
      (((LoadProgram h lines re).1 = none ∧ rest = [] ∧ re = false ∧
         (LoadProgram h lines re).2.state = CPUok) ∨
       (∃ e, (LoadProgram h lines re).1 = some e ∧
         (LoadProgram h lines re).2.state = CPUhalt ∧
         ((rest = [] ∧ re = true ∧ e = badFile) ∨
          (∃ l2 rest2, rest = l2 :: rest2 ∧ parseLine l2 = Except.error e)))) := by
  obtain ⟨pre, rest, heq, hok, hmem, hend⟩ := loadLines_spec lines (fun _ => 0)
  rcases hll : loadLines (fun _ => (0 : Int)) lines with ⟨mem1, oe⟩
  have hll' : loadLines (Machine.mem {h with state := CPUhalt, mem := fun _ => 0}) lines
      = (mem1, oe) := hll
  rw [hll] at hmem hend
  refine ⟨pre, rest, heq, hok, ?_, ?_, ?_, ?_, ?_⟩
  · cases oe with
    | some e => simp only [LoadProgram, hll']; exact hmem
    | none =>
      cases re with
      | true => simp only [LoadProgram, hll']; exact hmem
      | false => simp only [LoadProgram, hll']; exact hmem
  · cases oe with
    | some e => simp [LoadProgram, hll']
    | none => cases re <;> simp [LoadProgram, hll']
  · cases oe with
    | some e => simp [LoadProgram, hll']
    | none => cases re <;> simp [LoadProgram, hll']
  · cases oe with
    | some e => simp [LoadProgram, hll']
    | none => cases re <;> simp [LoadProgram, hll']
  · cases oe with
    | some e =>
      rcases hend with ⟨hnone, _⟩ | ⟨e2, l2, r2, hsome, hrest, hperr⟩
      · exact absurd hnone (by simp)
      · have he2 : e = e2 := Option.some.inj hsome
        subst he2
        refine Or.inr ⟨e, ?_, ?_, Or.inr ⟨l2, r2, hrest, hperr⟩⟩
        · simp [LoadProgram, hll']
        · simp [LoadProgram, hll']
    | none =>
      rcases hend with ⟨_, hrest⟩ | ⟨e2, l2, r2, hsome, _, _⟩
      · cases re with
        | true =>
          refine Or.inr ⟨badFile, ?_, ?_, Or.inl ⟨hrest, rfl, rfl⟩⟩
          · simp [LoadProgram, hll']
          · simp [LoadProgram, hll']
        | false =>
          refine Or.inl ⟨?_, hrest, rfl, ?_⟩
          · simp [LoadProgram, hll']
          · simp [LoadProgram, hll']
      · exact absurd hsome (by simp)

/-- Witness for C4: the loader contract applied to a concrete three-line
program whose third line fails the grammar. -/
theorem LoadProgram_spec_witness :
    ∃ pre rest, [("0: 100"), ("1: -5"), ("oops")] = pre ++ rest ∧
      (∀ l ∈ pre, ∃ a v, parseLine l = Except.ok (a, v)) ∧
      (LoadProgram NewMachine [("0: 100"), ("1: -5"), ("oops")] false).2.mem
        = List.foldl storeLine (fun _ => 0) pre ∧
      (LoadProgram NewMachine [("0: 100"), ("1: -5"), ("oops")] false).2.pc = NewMachine.pc ∧
      (LoadProgram NewMachine [("0: 100"), ("1: -5"), ("oops")] false).2.ac = NewMachine.ac ∧
      (LoadProgram NewMachine [("0: 100"), ("1: -5"), ("oops")] false).2.mq = NewMachine.mq ∧
      (((LoadProgram NewMachine [("0: 100"), ("1: -5"), ("oops")] false).1 = none ∧ rest = [] ∧
         (false : Bool) = false ∧
         (LoadProgram NewMachine [("0: 100"), ("1: -5"), ("oops")] false).2.state = CPUok) ∨
       (∃ e, (LoadProgram NewMachine [("0: 100"), ("1: -5"), ("oops")] false).1 = some e ∧
         (LoadProgram NewMachine [("0: 100"), ("1: -5"), ("oops")] false).2.state = CPUhalt ∧
         ((rest = [] ∧ (false : Bool) = true ∧ e = badFile) ∨
          (∃ l2 rest2, rest = l2 :: rest2 ∧ parseLine l2 = Except.error e)))) :=
  LoadProgram_spec NewMachine [("0: 100"), ("1: -5"), ("oops")] false

/-! C8: the bad-value failure is reachable. -/

/-- C8 counterexample: the line with value token made of two minus signs and
a digit matches the loader grammar yet fails integer parsing, so LoadProgram
does return the bad-value failure. -/
theorem LoadProgram_badValue_cex :
    (matchLine ("0: --1").data).isSome = true ∧
    (LoadProgram NewMachine [("0: --1")] false).1 = some badValue := by
  exact ⟨rfl, rfl⟩

/-- C8 amended: the bad-value branch of LoadProgram is reachable: the grammar
group for the value token admits any number of leading minus signs, and a
token with two of them parses as no integer, so loading the line produces the
bad-value failure with the machine left halted, from any starting machine. -/
theorem LoadProgram_badValue_reachable (h : Machine) :
    matchLine ("0: --1").data = some (("0").data, ("--1").data) ∧
    atoi ("--1").data = none ∧
    (LoadProgram h [("0: --1")] false).1 = some badValue ∧
    (LoadProgram h [("0: --1")] false).2.state = CPUhalt := by
  have hp : parseLine ("0: --1") = Except.error badValue := rfl
  refine ⟨rfl, rfl, ?_, ?_⟩ <;> simp [LoadProgram, loadLines, hp]
